import Mathlib

/-!
Verification of the analytics core of the fullstack-cricket-sim repository
(`backend/analytics.py`): the per-game feature extractor
`compute_game_features` and the per-game simulation-run clusterer
`cluster_simulation_runs`.

The two functions read, for one game, the home-team and the away-team
collections of simulation records (`simulation_run`, `results`) and are pure
in those collections; we embed them as functions of the two record lists.
Scores are integers in the data model; derived quantities (means, the win
fraction, the run-level features) are exact rationals, and the standardized
feature matrix lives in `ℝ` because the scaling divides by a square root.
-/

namespace Cricket

/-- A simulation record, the two fields of `models.Simulation` that
`analytics.py` reads: `simulation_run` and `results` (the score). -/
structure Sim where
  simulation_run : ℕ
  results : ℤ
deriving DecidableEq

/-- Lookup in the Python dict `{sim.simulation_run: sim.results for sim in sims}`:
for a duplicated run number the last record wins, hence `find?` over the
reversed list. -/
def dictLookup (sims : List Sim) (r : ℕ) : Option ℤ :=
  (sims.reverse.find? (fun s => s.simulation_run == r)).map (·.results)

/-- The key set of that dict, as the deduplicated list of run numbers. -/
def dictKeys (sims : List Sim) : List ℕ :=
  (sims.map (·.simulation_run)).dedup

/-- `home_scores[run]` / `away_scores[run]`; the default `0` is never reached
on a common run, where the key is present on both sides. -/
def scoreOf (sims : List Sim) (r : ℕ) : ℤ :=
  (dictLookup sims r).getD 0

/-- `sorted(set(home_scores.keys()).intersection(away_scores.keys()))`:
the run numbers present on both sides, in increasing order. -/
def common_runs (home_sims away_sims : List Sim) : List ℕ :=
  List.insertionSort (· ≤ ·)
    ((dictKeys home_sims).filter (fun r => decide (r ∈ dictKeys away_sims)))

/-- The common runs counted by `wins = sum(1 for run in common_runs if
home_scores[run] > away_scores[run])`: those the home team won strictly. -/
def win_runs (home_sims away_sims : List Sim) : List ℕ :=
  (common_runs home_sims away_sims).filter
    (fun r => scoreOf away_sims r < scoreOf home_sims r)

/-- Shallow embedding of `compute_game_features(game, db)`, as a function of
the two record collections the queries return. Mirrors the source line by
line: empty-side early `None`, empty-intersection early `None`, the two
`np.mean` calls over the common runs, the strict-win count, and the guarded
`wins / len(common_runs) if common_runs else 0` (the guard is dead code here,
kept faithfully). Returns the Python list `[avg_home, avg_away,
win_percentage]`. -/
def compute_game_features (home_sims away_sims : List Sim) : Option (List ℚ) :=
  if home_sims = [] ∨ away_sims = [] then none
  else
    let common := common_runs home_sims away_sims
    if common = [] then none
    else
      let avg_home : ℚ :=
        ((common.map (fun r => ((scoreOf home_sims r : ℤ) : ℚ))).sum) / (common.length : ℚ)
      let avg_away : ℚ :=
        ((common.map (fun r => ((scoreOf away_sims r : ℤ) : ℚ))).sum) / (common.length : ℚ)
      let wins : ℕ := (win_runs home_sims away_sims).length
      let win_percentage : ℚ :=
        if common = [] then 0 else (wins : ℚ) / (common.length : ℚ)
      some [avg_home, avg_away, win_percentage]

/-- The worked example of the spec, home side: scores `[10, 20, 5]` on runs 1,2,3. -/
def exHome : List Sim := [⟨1, 10⟩, ⟨2, 20⟩, ⟨3, 5⟩]

/-- The worked example of the spec, away side: scores `[8, 25, 5]` on runs 1,2,3. -/
def exAway : List Sim := [⟨1, 8⟩, ⟨2, 25⟩, ⟨3, 5⟩]

/-- The feature-assembly loop of `cluster_simulation_runs`: starting from the
empty `features` and `run_numbers` lists, for each common run in order append
the run-level vector `[avg_score, diff]` (as a pair) and the run number. -/
def buildFeatures (h a : ℕ → ℤ) (runs : List ℕ) : List (ℚ × ℚ) × List ℕ :=
  runs.foldl (fun acc run =>
    let home_score := h run
    let away_score := a run
    let avg_score : ℚ := ((home_score : ℚ) + (away_score : ℚ)) / 2
    let diff : ℚ := (home_score : ℚ) - (away_score : ℚ)
    (acc.1 ++ [(avg_score, diff)], acc.2 ++ [run])) ([], [])

/-- Arithmetic mean of a list of reals (`0` on the empty list, which the
callers never reach). -/
noncomputable def listMeanR (l : List ℝ) : ℝ := l.sum / l.length

/-- Population variance of a list of reals, as `numpy`/`StandardScaler`
compute it: mean of squared deviations from the mean. -/
noncomputable def popVar (l : List ℝ) : ℝ :=
  ((l.map (fun v => (v - listMeanR l) ^ 2)).sum) / l.length

/-- The per-column scale of StandardScaler: the population standard deviation,
with an exact zero (constant column) replaced by `1` so that the division is
defined — the scikit-learn helper that replaces zeros in the scale. -/
noncomputable def scaleOf (l : List ℝ) : ℝ :=
  if Real.sqrt (popVar l) = 0 then 1 else Real.sqrt (popVar l)

/-- One column of `StandardScaler().fit_transform`: every value `v` becomes
`(v - mean) / scale`. -/
noncomputable def standardizeColumn (l : List ℝ) : List ℝ :=
  l.map (fun v => (v - listMeanR l) / scaleOf l)

/-- `StandardScaler().fit_transform(features)` on the two-column run-level
feature matrix: each column is standardized independently. -/
noncomputable def standardizeMatrix (rows : List (ℚ × ℚ)) : List (ℝ × ℝ) :=
  (standardizeColumn (rows.map (fun p => (p.1 : ℝ)))).zip
    (standardizeColumn (rows.map (fun p => (p.2 : ℝ))))

/-- Squared Euclidean distance between two points of the plane. -/
noncomputable def sqDist (p q : ℝ × ℝ) : ℝ := (p.1 - q.1) ^ 2 + (p.2 - q.2) ^ 2

/-- Index of the centroid nearest to `p` (first index on ties), accumulator
form: `i` is the index of the next candidate, `best`/`bestd` the best index
and distance so far. -/
noncomputable def argminAux (p : ℝ × ℝ) : List (ℝ × ℝ) → ℕ → ℕ → ℝ → ℕ
  | [], _, best, _ => best
  | c :: cs, i, best, bestd =>
    if sqDist p c < bestd then argminAux p cs (i + 1) i (sqDist p c)
    else argminAux p cs (i + 1) best bestd

/-- Index of the centroid of `cs` nearest to `p` (`0` if `cs` is empty). -/
noncomputable def nearestCentroid (cs : List (ℝ × ℝ)) (p : ℝ × ℝ) : ℕ :=
  match cs with
  | [] => 0
  | c :: rest => argminAux p rest 1 0 (sqDist p c)

/-- Componentwise mean of a set of points. -/
noncomputable def centroidOf (pts : List (ℝ × ℝ)) : ℝ × ℝ :=
  (listMeanR (pts.map Prod.fst), listMeanR (pts.map Prod.snd))

/-- The Lloyd update: each centroid is replaced by the mean of the points
assigned to it; a centroid with no assigned points is kept. -/
noncomputable def updateCentroids (cs : List (ℝ × ℝ)) (pts : List (ℝ × ℝ)) :
    List (ℝ × ℝ) :=
  (List.range cs.length).map (fun j =>
    let cluster := pts.filter (fun p => nearestCentroid cs p = j)
    if cluster = [] then cs.getD j (0, 0) else centroidOf cluster)

/-- Repeated assign/update rounds (`n` of them) of the Lloyd algorithm. -/
noncomputable def lloydIter : ℕ → List (ℝ × ℝ) → List (ℝ × ℝ) → List (ℝ × ℝ)
  | 0, cs, _ => cs
  | n + 1, cs, pts => lloydIter n (updateCentroids cs pts) pts

/-- Modelled from the spec: the scikit-learn call
`KMeans(n_clusters=k, random_state=seed).fit_predict(pts)` (the library is
external to the repository, only its call site is in `analytics.py`). Per the
spec, a centroid-based method equivalent to the Lloyd algorithm: `k` centroids
initialized deterministically from the fixed seed, then assign-to-nearest /
recompute-as-mean rounds up to the default iteration cap of 300;
returns one label per input point. Like the library it fails (here `none`)
when `k = 0` or there are fewer samples than clusters; that error case is
delegated to the library by the code under verification. -/
noncomputable def kmeans_fit_predict (seed k : ℕ) (pts : List (ℝ × ℝ)) :
    Option (List ℕ) :=
  if k = 0 ∨ pts.length < k then none
  else
    let start := seed % pts.length
    let init := ((pts.drop start) ++ (pts.take start)).take k
    let final := lloydIter 300 init pts
    some (pts.map (nearestCentroid final))

/-- Shallow embedding of `cluster_simulation_runs(game, db, n_clusters)`, as a
function of the two record collections and `n_clusters`. Mirrors the source:
build the per-side score dicts, take the sorted common runs, return the empty
mapping `{}` when there are none, otherwise assemble the `[avg_score, diff]`
feature rows and the parallel `run_numbers`, standardize with
`StandardScaler`, cluster with `KMeans(n_clusters, random_state=42)` and
return `dict(zip(run_numbers, labels))` as an association list. `none` models
an exception escaping from the library call. -/
noncomputable def cluster_simulation_runs (home_sims away_sims : List Sim)
    (n_clusters : ℕ) : Option (List (ℕ × ℕ)) :=
  let common := common_runs home_sims away_sims
  if common = [] then some []
  else
    let fb := buildFeatures (scoreOf home_sims) (scoreOf away_sims) common
    let features := fb.1
    let run_numbers := fb.2
    let features_scaled := standardizeMatrix features
    (kmeans_fit_predict 42 n_clusters features_scaled).map
      (fun labels => run_numbers.zip labels)

/-! ## General lemmas -/

theorem compute_game_features_some (home away : List Sim)
    (hne : ¬(home = [] ∨ away = [])) (hc : ¬ common_runs home away = []) :
    compute_game_features home away =
      some [((common_runs home away).map (fun r => ((scoreOf home r : ℤ) : ℚ))).sum /
              ((common_runs home away).length : ℚ),
            ((common_runs home away).map (fun r => ((scoreOf away r : ℤ) : ℚ))).sum /
              ((common_runs home away).length : ℚ),
            ((win_runs home away).length : ℚ) / ((common_runs home away).length : ℚ)] := by
  simp only [compute_game_features, if_neg hne, if_neg hc]

theorem common_runs_nil_left (away : List Sim) : common_runs [] away = [] := by
  simp [common_runs, dictKeys, List.insertionSort]

theorem common_runs_nil_right (home : List Sim) : common_runs home [] = [] := by
  simp [common_runs, dictKeys, List.insertionSort]

theorem common_runs_sorted (home away : List Sim) :
    List.Sorted (· ≤ ·) (common_runs home away) :=
  List.sorted_insertionSort (· ≤ ·) _

theorem common_runs_perm_filter (home away : List Sim) :
    (common_runs home away).Perm
      ((dictKeys home).filter (fun r => decide (r ∈ dictKeys away))) :=
  List.perm_insertionSort (· ≤ ·) _

theorem mem_common_runs (home away : List Sim) (r : ℕ) :
    r ∈ common_runs home away ↔
      r ∈ home.map Sim.simulation_run ∧ r ∈ away.map Sim.simulation_run := by
  rw [(common_runs_perm_filter home away).mem_iff]
  simp [dictKeys, List.mem_filter]

theorem common_runs_nodup (home away : List Sim) :
    (common_runs home away).Nodup :=
  ((List.nodup_dedup _).filter _).perm (common_runs_perm_filter home away).symm

theorem buildFeatures_spec (h a : ℕ → ℤ) (runs : List ℕ) :
    buildFeatures h a runs =
      (runs.map (fun run =>
        (((h run : ℚ) + (a run : ℚ)) / 2, (h run : ℚ) - (a run : ℚ))), runs) := by
  suffices key : ∀ (rs : List ℕ) (f0 : List (ℚ × ℚ)) (r0 : List ℕ),
      rs.foldl (fun acc run =>
          (acc.1 ++ [(((h run : ℚ) + (a run : ℚ)) / 2, (h run : ℚ) - (a run : ℚ))],
           acc.2 ++ [run])) (f0, r0)
        = (f0 ++ rs.map (fun run =>
            (((h run : ℚ) + (a run : ℚ)) / 2, (h run : ℚ) - (a run : ℚ))), r0 ++ rs) by
    simpa [buildFeatures] using key runs [] []
  intro rs
  induction rs with
  | nil => intro f0 r0; simp
  | cons x xs ih => intro f0 r0; simp [ih]

theorem standardizeColumn_length (l : List ℝ) :
    (standardizeColumn l).length = l.length := by
  simp [standardizeColumn]

theorem standardizeMatrix_length (rows : List (ℚ × ℚ)) :
    (standardizeMatrix rows).length = rows.length := by
  simp [standardizeMatrix, standardizeColumn_length]

theorem kmeans_length (seed k : ℕ) (pts : List (ℝ × ℝ)) (ls : List ℕ)
    (h : kmeans_fit_predict seed k pts = some ls) : ls.length = pts.length := by
  by_cases hk : k = 0 ∨ pts.length < k
  · simp [kmeans_fit_predict, hk] at h
  · simp only [kmeans_fit_predict, if_neg hk, Option.some_inj] at h
    rw [← h]
    simp

theorem example_features_eval :
    compute_game_features exHome exAway = some [35/3, 38/3, 1/3] := by
  norm_num [compute_game_features, common_runs, win_runs, dictKeys, dictLookup, scoreOf,
    exHome, exAway, List.insertionSort, List.orderedInsert]
  simp

theorem compute_game_features_some_inv (home away : List Sim) (l : List ℚ)
    (h : compute_game_features home away = some l) :
    l = [((common_runs home away).map (fun r => ((scoreOf home r : ℤ) : ℚ))).sum /
           ((common_runs home away).length : ℚ),
         ((common_runs home away).map (fun r => ((scoreOf away r : ℤ) : ℚ))).sum /
           ((common_runs home away).length : ℚ),
         ((win_runs home away).length : ℚ) / ((common_runs home away).length : ℚ)] := by
  by_cases hne : home = [] ∨ away = []
  · simp [compute_game_features, hne] at h
  · by_cases hc : common_runs home away = []
    · simp only [compute_game_features, if_neg hne, if_pos hc] at h
      exact absurd h (by simp)
    · rw [compute_game_features_some home away hne hc] at h
      exact (Option.some_inj.mp h).symm

/-! ## Claim theorems -/

/-- C3: `compute_game_features` returns `none` (the insufficient-data
sentinel) exactly when one of the two record collections is empty or the run
intersection is empty, and in every other case it returns a 3-element
vector. -/
theorem compute_game_features_none_iff_insufficient (home away : List Sim) :
    (compute_game_features home away = none ↔
      home = [] ∨ away = [] ∨ common_runs home away = []) ∧
    (∀ l, compute_game_features home away = some l → l.length = 3) := by
  constructor
  · by_cases hne : home = [] ∨ away = []
    · simp [compute_game_features, hne]
      tauto
    · by_cases hc : common_runs home away = []
      · simp only [compute_game_features, if_neg hne, if_pos hc]
        tauto
      · rw [compute_game_features_some home away hne hc]
        simp
        tauto
  · intro l hl
    by_cases hne : home = [] ∨ away = []
    · simp [compute_game_features, hne] at hl
    · by_cases hc : common_runs home away = []
      · simp [compute_game_features, hne, hc] at hl
      · rw [compute_game_features_some home away hne hc] at hl
        simp at hl
        subst hl
        rfl

/-- C3 witness: at two non-empty collections with disjoint runs the sentinel
is returned, and every `some` result has three entries. -/
theorem compute_game_features_none_iff_insufficient_witness :
    (compute_game_features [⟨1, 3⟩] [⟨2, 4⟩] = none ↔
      [Sim.mk 1 3] = [] ∨ [Sim.mk 2 4] = [] ∨ common_runs [⟨1, 3⟩] [⟨2, 4⟩] = []) ∧
    (∀ l, compute_game_features [⟨1, 3⟩] [⟨2, 4⟩] = some l → l.length = 3) :=
  compute_game_features_none_iff_insufficient [⟨1, 3⟩] [⟨2, 4⟩]

/-- C7: a common run is counted by `wins` only when the home score is
strictly greater than the away score; in particular a tie is never counted
as a home win. -/
theorem ties_never_count_as_wins (home away : List Sim) (r : ℕ) :
    (r ∈ win_runs home away → scoreOf away r < scoreOf home r) ∧
    (r ∈ common_runs home away → scoreOf home r = scoreOf away r →
      r ∉ win_runs home away) := by
  constructor
  · intro hr
    have := List.of_mem_filter hr
    simpa using this
  · intro _ heq hmem
    have := List.of_mem_filter hmem
    simp only [decide_eq_true_eq] at this
    omega

/-- C1 counterexample: at the own example of the spec (home `[10, 20, 5]` vs away
`[8, 25, 5]` on runs 1,2,3) the returned vector is `[35/3, 38/3, 1/3]`: the
third component is the bare win fraction `1/3 ≈ 0.333`, not
`1/3 * 100 ≈ 33.33` — the source computes `wins / len(common_runs)` with no
`* 100`. -/
theorem win_percentage_times_100_refuted :
    compute_game_features exHome exAway = some [35/3, 38/3, 1/3] ∧
    (compute_game_features exHome exAway).bind (fun l => l.get? 2) ≠
      some (1/3 * 100) := by
  refine ⟨example_features_eval, ?_⟩
  rw [example_features_eval]
  norm_num

/-- C1 amended: for every game with non-empty sides and non-empty common-run
set, the third component of the vector returned by `compute_game_features`
equals `wins / |common_runs|` — the home-win fraction, not multiplied by 100;
the example of the spec yields `1/3 ≈ 0.333`. -/
theorem win_percentage_is_win_fraction (home away : List Sim) (l : List ℚ)
    (h : compute_game_features home away = some l) :
    l.get? 2 = some (((win_runs home away).length : ℚ) /
      ((common_runs home away).length : ℚ)) := by
  rw [compute_game_features_some_inv home away l h]
  rfl

/-- C1 witness: the amended claim at the example of the spec, where the fraction is
`1/3`. -/
theorem win_percentage_is_win_fraction_witness :
    compute_game_features exHome exAway = some [35/3, 38/3, 1/3] ∧
    ([35/3, 38/3, (1:ℚ)/3] : List ℚ).get? 2 =
      some (((win_runs exHome exAway).length : ℚ) /
        ((common_runs exHome exAway).length : ℚ)) :=
  ⟨example_features_eval,
    win_percentage_is_win_fraction exHome exAway _ example_features_eval⟩

/-- C8: the first and second components of the vector returned by
`compute_game_features` are the arithmetic means of the home and away scores
restricted to the common runs; records whose run number has no counterpart on
the other side contribute nothing to either sum. -/
theorem averages_restricted_to_common_runs (home away : List Sim) (l : List ℚ)
    (h : compute_game_features home away = some l) :
    l.get? 0 = some (((common_runs home away).map
        (fun r => ((scoreOf home r : ℤ) : ℚ))).sum /
      ((common_runs home away).length : ℚ)) ∧
    l.get? 1 = some (((common_runs home away).map
        (fun r => ((scoreOf away r : ℤ) : ℚ))).sum /
      ((common_runs home away).length : ℚ)) := by
  rw [compute_game_features_some_inv home away l h]
  exact ⟨rfl, rfl⟩

/-- C8 witness: at the example of the spec the means are `35/3 = 11.666…` and
`38/3 = 12.666…`. -/
theorem averages_restricted_to_common_runs_witness :
    compute_game_features exHome exAway = some [35/3, 38/3, 1/3] ∧
    (([35/3, 38/3, (1:ℚ)/3] : List ℚ).get? 0 = some (((common_runs exHome exAway).map
        (fun r => ((scoreOf exHome r : ℤ) : ℚ))).sum /
      ((common_runs exHome exAway).length : ℚ)) ∧
    ([35/3, 38/3, (1:ℚ)/3] : List ℚ).get? 1 = some (((common_runs exHome exAway).map
        (fun r => ((scoreOf exAway r : ℤ) : ℚ))).sum /
      ((common_runs exHome exAway).length : ℚ))) :=
  ⟨example_features_eval,
    averages_restricted_to_common_runs exHome exAway _ example_features_eval⟩

/-- C7 witness: in the example of the spec run 3 is a tie (5–5) and is not a
counted win. -/
theorem ties_never_count_as_wins_witness :
    (3 ∈ common_runs exHome exAway) ∧ scoreOf exHome 3 = scoreOf exAway 3 ∧
    3 ∉ win_runs exHome exAway :=
  ⟨by decide, by decide,
    (ties_never_count_as_wins exHome exAway 3).2 (by decide) (by decide)⟩

/-- C10: unlike `compute_game_features`, the clusterer has no empty-collection
early return — when either side has zero records (so the run intersection is
necessarily empty) `cluster_simulation_runs` still returns the empty mapping,
not an error, while `compute_game_features` returns the `none` sentinel on
the very same input. -/
theorem cluster_empty_sides_empty_mapping (home away : List Sim) (k : ℕ)
    (h : home = [] ∨ away = []) :
    cluster_simulation_runs home away k = some [] ∧
    compute_game_features home away = none := by
  have hc : common_runs home away = [] := by
    rcases h with h | h
    · rw [h]; exact common_runs_nil_left away
    · rw [h]; exact common_runs_nil_right home
  refine ⟨by simp [cluster_simulation_runs, hc], ?_⟩
  rcases h with h | h <;> simp [compute_game_features, h]

/-- C10 witness: the home side empty, the away side not. -/
theorem cluster_empty_sides_empty_mapping_witness :
    cluster_simulation_runs [] [⟨1, 5⟩] 3 = some [] ∧
    compute_game_features [] [⟨1, 5⟩] = none :=
  cluster_empty_sides_empty_mapping [] [⟨1, 5⟩] 3 (Or.inl rfl)

/-- C6: for every common run, in the fixed order of the sorted `common_runs`
list, the run-level feature pair built inside `cluster_simulation_runs` is
`(average_score, score_difference)` with `average_score = (home + away) / 2`
and `score_difference = home - away`, and the run numbers are recorded in the
parallel `run_numbers` list, which is exactly `common_runs`. -/
theorem run_feature_vectors_and_order (home away : List Sim) :
    (buildFeatures (scoreOf home) (scoreOf away) (common_runs home away)).1 =
      (common_runs home away).map (fun run =>
        (((scoreOf home run : ℚ) + (scoreOf away run : ℚ)) / 2,
         (scoreOf home run : ℚ) - (scoreOf away run : ℚ))) ∧
    (buildFeatures (scoreOf home) (scoreOf away) (common_runs home away)).2 =
      common_runs home away ∧
    List.Sorted (· ≤ ·) (common_runs home away) := by
  rw [buildFeatures_spec]
  exact ⟨rfl, rfl, common_runs_sorted home away⟩

/-- C2: any mapping returned by `cluster_simulation_runs` has key list exactly
`common_runs` — a duplicate-free sorted list containing a run number iff it
occurs on both the home and the away side — and an empty intersection yields
the empty mapping as a valid (`some`) result for every `k`. -/
theorem cluster_keys_are_common_runs (home away : List Sim) (k : ℕ) :
    (∀ m, cluster_simulation_runs home away k = some m →
      m.map Prod.fst = common_runs home away) ∧
    List.Sorted (· ≤ ·) (common_runs home away) ∧
    (common_runs home away).Nodup ∧
    (∀ r, r ∈ common_runs home away ↔
      r ∈ home.map Sim.simulation_run ∧ r ∈ away.map Sim.simulation_run) ∧
    (common_runs home away = [] → cluster_simulation_runs home away k = some []) := by
  refine ⟨?_, common_runs_sorted home away, common_runs_nodup home away,
    mem_common_runs home away, fun hc => by simp [cluster_simulation_runs, hc]⟩
  intro m hm
  by_cases hc : common_runs home away = []
  · simp only [cluster_simulation_runs, if_pos hc, Option.some_inj] at hm
    rw [← hm, hc]
    rfl
  · simp only [cluster_simulation_runs, if_neg hc, Option.map_eq_some'] at hm
    obtain ⟨ls, hls, rfl⟩ := hm
    have hlen := kmeans_length _ _ _ _ hls
    rw [standardizeMatrix_length, buildFeatures_spec] at hlen
    simp only [buildFeatures_spec]
    apply List.map_fst_zip
    simp only [buildFeatures_spec] at hlen ⊢
    simp at hlen ⊢
    omega

/-- C2 witness: disjoint run sets give the empty mapping. -/
theorem cluster_keys_are_common_runs_witness :
    common_runs [⟨1, 3⟩] [⟨2, 4⟩] = [] ∧
    cluster_simulation_runs [⟨1, 3⟩] [⟨2, 4⟩] 3 = some [] :=
  ⟨by decide, (cluster_keys_are_common_runs [⟨1, 3⟩] [⟨2, 4⟩] 3).2.2.2.2 (by decide)⟩

/-- C4: determinism — `cluster_simulation_runs` is a pure function of the two
record collections and `k` (the clustering seed is the single fixed constant
42 in the source, not ambient randomness), so two calls with identical input
and the same `k` return identical run-to-label mappings. -/
theorem cluster_deterministic_in_input (h1 a1 h2 a2 : List Sim) (k1 k2 : ℕ)
    (hh : h1 = h2) (ha : a1 = a2) (hk : k1 = k2) :
    cluster_simulation_runs h1 a1 k1 = cluster_simulation_runs h2 a2 k2 := by
  rw [hh, ha, hk]

/-- C4 witness: two syntactically separate calls on the example data. -/
theorem cluster_deterministic_in_input_witness :
    cluster_simulation_runs exHome exAway 3 = cluster_simulation_runs exHome exAway 3 :=
  cluster_deterministic_in_input exHome exAway exHome exAway 3 3 rfl rfl rfl

/-! ## Lemmas for the standardization claims -/

theorem length_cast_ne_zero {col : List ℝ} (h : col ≠ []) : (col.length : ℝ) ≠ 0 := by
  simpa [List.length_eq_zero] using h

theorem sum_map_sub_const (l : List ℝ) (c : ℝ) :
    (l.map (fun v => v - c)).sum = l.sum - l.length * c := by
  induction l with
  | nil => simp
  | cons a t ih =>
    simp only [List.map_cons, List.sum_cons, ih, List.length_cons]
    push_cast
    ring

theorem sum_sub_mean (l : List ℝ) (hl : l ≠ []) :
    (l.map (fun v => v - listMeanR l)).sum = 0 := by
  rw [sum_map_sub_const, listMeanR]
  have hn := length_cast_ne_zero hl
  field_simp

theorem eq_zero_of_mem_of_sum_eq_zero {l : List ℝ} (h0 : ∀ x ∈ l, 0 ≤ x)
    (hs : l.sum = 0) : ∀ x ∈ l, x = 0 := by
  induction l with
  | nil => intro x hx; exact absurd hx (List.not_mem_nil x)
  | cons a t ih =>
    have hta : 0 ≤ a := h0 a (List.mem_cons_self a t)
    have htt : 0 ≤ t.sum := List.sum_nonneg fun x hx => h0 x (List.mem_cons_of_mem a hx)
    rw [List.sum_cons] at hs
    have ha0 : a = 0 := by linarith
    have hts : t.sum = 0 := by linarith
    intro x hx
    rcases List.mem_cons.mp hx with rfl | hx
    · exact ha0
    · exact ih (fun y hy => h0 y (List.mem_cons_of_mem a hy)) hts x hx

theorem popVar_nonneg (l : List ℝ) : 0 ≤ popVar l := by
  unfold popVar
  apply div_nonneg
  · apply List.sum_nonneg
    intro x hx
    obtain ⟨v, _, rfl⟩ := List.mem_map.mp hx
    positivity
  · positivity

theorem standardizeColumn_mean (col : List ℝ) (h : col ≠ []) :
    listMeanR (standardizeColumn col) = 0 := by
  unfold listMeanR standardizeColumn
  have heq : (fun v => (v - listMeanR col) / scaleOf col)
      = fun v => (v - listMeanR col) * (scaleOf col)⁻¹ := by
    funext v
    ring
  rw [heq, List.sum_map_mul_right, sum_sub_mean col h]
  simp

theorem scaleOf_of_var_ne (col : List ℝ) (hv : popVar col ≠ 0) :
    scaleOf col = Real.sqrt (popVar col) ∧ scaleOf col ≠ 0 := by
  have hvpos : 0 < popVar col := (popVar_nonneg col).lt_of_ne (Ne.symm hv)
  have hspos : 0 < Real.sqrt (popVar col) := Real.sqrt_pos.mpr hvpos
  unfold scaleOf
  rw [if_neg (ne_of_gt hspos)]
  exact ⟨rfl, ne_of_gt hspos⟩

theorem standardizeColumn_var (col : List ℝ) (h : col ≠ []) (hv : popVar col ≠ 0) :
    popVar (standardizeColumn col) = 1 := by
  obtain ⟨hs, hs0⟩ := scaleOf_of_var_ne col hv
  have hvpos : 0 < popVar col := (popVar_nonneg col).lt_of_ne (Ne.symm hv)
  have hs2 : scaleOf col ^ 2 = popVar col := by
    rw [hs]
    exact Real.sq_sqrt hvpos.le
  have hn := length_cast_ne_zero h
  have hmean := standardizeColumn_mean col h
  unfold popVar
  rw [hmean]
  unfold standardizeColumn
  rw [List.map_map, List.length_map]
  have hcomp : ((fun v => (v - 0) ^ 2) ∘ fun v => (v - listMeanR col) / scaleOf col)
      = fun v => ((v - listMeanR col) ^ 2) * ((scaleOf col ^ 2)⁻¹) := by
    funext v
    field_simp
  rw [hcomp, List.sum_map_mul_right]
  have hsum : (col.map fun v => (v - listMeanR col) ^ 2).sum = popVar col * col.length := by
    unfold popVar
    field_simp
  rw [hsum, hs2]
  field_simp

theorem standardizeColumn_of_const (col : List ℝ) (h : col ≠ []) (hv : popVar col = 0) :
    standardizeColumn col = List.replicate col.length 0 := by
  have hn := length_cast_ne_zero h
  have hsum : (col.map fun v => (v - listMeanR col) ^ 2).sum = 0 := by
    unfold popVar at hv
    rw [div_eq_zero_iff] at hv
    tauto
  have hall : ∀ v ∈ col, v = listMeanR col := by
    intro v hvm
    have hmem : (v - listMeanR col) ^ 2 ∈ col.map fun v => (v - listMeanR col) ^ 2 :=
      List.mem_map.mpr ⟨v, hvm, rfl⟩
    have h0 : ∀ x ∈ col.map fun v => (v - listMeanR col) ^ 2, (0:ℝ) ≤ x := by
      intro x hx
      obtain ⟨w, _, rfl⟩ := List.mem_map.mp hx
      positivity
    have hz := eq_zero_of_mem_of_sum_eq_zero h0 hsum _ hmem
    have := pow_eq_zero_iff (n := 2) (by norm_num) |>.mp hz
    linarith [sub_eq_zero.mp this]
  have hscale : scaleOf col = 1 := by
    unfold scaleOf
    rw [hv, Real.sqrt_zero, if_pos rfl]
  rw [List.eq_replicate_iff]
  refine ⟨by simp [standardizeColumn], ?_⟩
  intro b hb
  obtain ⟨v, hvm, rfl⟩ := List.mem_map.mp hb
  rw [hscale, hall v hvm]
  simp

/-! ## Lemmas for the permutation claim -/

theorem dictLookup_perm {l1 l2 : List Sim} (p : l1.Perm l2)
    (nd : (l1.map Sim.simulation_run).Nodup) (r : ℕ) :
    dictLookup l1 r = dictLookup l2 r := by
  unfold dictLookup
  cases e1 : l1.reverse.find? (fun s => s.simulation_run == r) with
  | none =>
    cases e2 : l2.reverse.find? (fun s => s.simulation_run == r) with
    | none => rfl
    | some t =>
      exfalso
      have ht := List.find?_some e2
      have htm : t ∈ l1.reverse := by
        rw [List.mem_reverse]
        exact p.mem_iff.mpr (List.mem_reverse.mp (List.mem_of_find?_eq_some e2))
      exact absurd ht (by simpa using List.find?_eq_none.mp e1 t htm)
  | some s =>
    cases e2 : l2.reverse.find? (fun s => s.simulation_run == r) with
    | none =>
      exfalso
      have hs := List.find?_some e1
      have hsm : s ∈ l2.reverse := by
        rw [List.mem_reverse]
        exact p.mem_iff.mp (List.mem_reverse.mp (List.mem_of_find?_eq_some e1))
      exact absurd hs (by simpa using List.find?_eq_none.mp e2 s hsm)
    | some t =>
      have hs := List.find?_some e1
      have ht := List.find?_some e2
      have hsm : s ∈ l1 := List.mem_reverse.mp (List.mem_of_find?_eq_some e1)
      have htm : t ∈ l1 := p.mem_iff.mpr (List.mem_reverse.mp (List.mem_of_find?_eq_some e2))
      simp only [beq_iff_eq] at hs ht
      have : s = t := List.inj_on_of_nodup_map nd hsm htm (hs.trans ht.symm)
      rw [this]

theorem scoreOf_perm {l1 l2 : List Sim} (p : l1.Perm l2)
    (nd : (l1.map Sim.simulation_run).Nodup) :
    scoreOf l1 = scoreOf l2 := by
  funext r
  unfold scoreOf
  rw [dictLookup_perm p nd r]

theorem dictKeys_perm {l1 l2 : List Sim} (p : l1.Perm l2) :
    (dictKeys l1).Perm (dictKeys l2) :=
  (p.map _).dedup

theorem common_runs_perm_congr {h1 h2 a1 a2 : List Sim}
    (ph : h1.Perm h2) (pa : a1.Perm a2) :
    common_runs h1 a1 = common_runs h2 a2 := by
  have hpred : (fun r => decide (r ∈ dictKeys a1)) = fun r => decide (r ∈ dictKeys a2) := by
    funext r
    exact decide_eq_decide.mpr (dictKeys_perm pa).mem_iff
  unfold common_runs
  refine List.eq_of_perm_of_sorted ?_
    (List.sorted_insertionSort _ _) (List.sorted_insertionSort _ _)
  refine (List.perm_insertionSort _ _).trans (.trans ?_ (List.perm_insertionSort _ _).symm)
  rw [hpred]
  exact (dictKeys_perm ph).filter _

/-- C5: inside `cluster_simulation_runs` the feature matrix is standardized
per column — the two output columns are exactly the per-column
standardization `(v - mean) / std` with the population standard deviation —
and every non-empty input column yields an output column of mean 0 and
standard deviation 1, except that a zero-variance (constant) column maps to
the all-zero column instead of an undefined division. -/
theorem standardized_columns_mean_zero_std_one (rows : List (ℚ × ℚ)) (col : List ℝ)
    (_hcol : col = rows.map (fun p => (p.1 : ℝ)) ∨ col = rows.map (fun p => (p.2 : ℝ)))
    (hne : col ≠ []) :
    ((standardizeMatrix rows).map Prod.fst =
        standardizeColumn (rows.map (fun p => (p.1 : ℝ))) ∧
     (standardizeMatrix rows).map Prod.snd =
        standardizeColumn (rows.map (fun p => (p.2 : ℝ)))) ∧
    listMeanR (standardizeColumn col) = 0 ∧
    (popVar col ≠ 0 → Real.sqrt (popVar (standardizeColumn col)) = 1) ∧
    (popVar col = 0 → standardizeColumn col = List.replicate col.length 0) := by
  refine ⟨⟨?_, ?_⟩, standardizeColumn_mean col hne, ?_, standardizeColumn_of_const col hne⟩
  · unfold standardizeMatrix
    apply List.map_fst_zip
    simp [standardizeColumn_length]
  · unfold standardizeMatrix
    apply List.map_snd_zip
    simp [standardizeColumn_length]
  · intro hv
    rw [standardizeColumn_var col hne hv, Real.sqrt_one]

/-- C5 witness: the first column of the concrete matrix `[(1,5), (3,5)]`. -/
theorem standardized_columns_mean_zero_std_one_witness :
    (([1, 3] : List ℝ) = ([((1:ℚ), (5:ℚ)), (3, 5)]).map (fun p => (p.1 : ℝ)) ∨
     ([1, 3] : List ℝ) = ([((1:ℚ), (5:ℚ)), (3, 5)]).map (fun p => (p.2 : ℝ))) ∧
    ([1, 3] : List ℝ) ≠ [] ∧
    (((standardizeMatrix [((1:ℚ), (5:ℚ)), (3, 5)]).map Prod.fst =
        standardizeColumn (([((1:ℚ), (5:ℚ)), (3, 5)]).map (fun p => (p.1 : ℝ))) ∧
      (standardizeMatrix [((1:ℚ), (5:ℚ)), (3, 5)]).map Prod.snd =
        standardizeColumn (([((1:ℚ), (5:ℚ)), (3, 5)]).map (fun p => (p.2 : ℝ)))) ∧
     listMeanR (standardizeColumn ([1, 3] : List ℝ)) = 0 ∧
     (popVar ([1, 3] : List ℝ) ≠ 0 →
       Real.sqrt (popVar (standardizeColumn ([1, 3] : List ℝ))) = 1) ∧
     (popVar ([1, 3] : List ℝ) = 0 →
       standardizeColumn ([1, 3] : List ℝ) = List.replicate ([1, 3] : List ℝ).length 0)) :=
  ⟨Or.inl (by norm_num), by simp,
    standardized_columns_mean_zero_std_one [((1:ℚ), (5:ℚ)), (3, 5)] [1, 3]
      (Or.inl (by norm_num)) (by simp)⟩

/-- C9: permutation invariance — reordering the home and the away record
collections (the same underlying run/score pairs, with run numbers unique per
side as the data model requires) leaves the returned run-to-label mapping
literally identical, so in particular the partition of the runs into groups
is unchanged. -/
theorem cluster_invariant_under_permutation (h1 h2 a1 a2 : List Sim) (k : ℕ)
    (ph : h1.Perm h2) (pa : a1.Perm a2)
    (ndh : (h1.map Sim.simulation_run).Nodup)
    (nda : (a1.map Sim.simulation_run).Nodup) :
    cluster_simulation_runs h1 a1 k = cluster_simulation_runs h2 a2 k := by
  have hc := common_runs_perm_congr ph pa
  have hsh := scoreOf_perm ph ndh
  have hsa := scoreOf_perm pa nda
  unfold cluster_simulation_runs
  rw [hc, hsh, hsa]

/-- C9 witness: both sides of the example of the spec reordered. -/
theorem cluster_invariant_under_permutation_witness :
    exHome.Perm [⟨3, 5⟩, ⟨1, 10⟩, ⟨2, 20⟩] ∧
    exAway.Perm [⟨2, 25⟩, ⟨1, 8⟩, ⟨3, 5⟩] ∧
    (exHome.map Sim.simulation_run).Nodup ∧
    (exAway.map Sim.simulation_run).Nodup ∧
    cluster_simulation_runs exHome exAway 2 =
      cluster_simulation_runs [⟨3, 5⟩, ⟨1, 10⟩, ⟨2, 20⟩] [⟨2, 25⟩, ⟨1, 8⟩, ⟨3, 5⟩] 2 :=
  ⟨by decide, by decide, by decide, by decide,
    cluster_invariant_under_permutation exHome [⟨3, 5⟩, ⟨1, 10⟩, ⟨2, 20⟩]
      exAway [⟨2, 25⟩, ⟨1, 8⟩, ⟨3, 5⟩] 2 (by decide) (by decide) (by decide) (by decide)⟩

end Cricket
